import Mathlib

/-!
Verification of the discord-ai-bot repository against its specification.

The Python sources are shallowly embedded:
* `src/config.py` — `MessageUtils.split_message` (text splitting) and
  `BotConfig.validate`, modelled on `List Char` / `Option String`;
* `src/ai_handler.py` — `AIHandler.query_ai` error classification and
  `ConversationManager` transcript building;
* `src/main.py` — the orchestrator's typing-task registry, the
  `on_message` handler's control flow, and process exit codes;
* `src/bot.py` — the variant `DiscordAIBot.on_message` handler.

Python strings are modelled as `List Char` (or Lean `String`, whose data
is a `List Char`); Python string slicing, `rfind`, `strip` and `replace`
are reimplemented below with Python's semantics.  The `while` loop of
`split_message` is modelled with explicit fuel, `none` standing for a
computation that did not finish within the given fuel; a separate
predicate `SplitDiverges` states that no amount of fuel finishes.
-/

namespace DiscordBot

/-- Python's `str.strip()` whitespace class (ASCII part): space, tab,
newline, carriage return, vertical tab, form feed. -/
def pySpace (c : Char) : Bool :=
  c = ' ' || c = '\t' || c = '\n' || c = '\r' || c = '\x0b' || c = '\x0c'

/-- All characters are Python whitespace. -/
def allSpace (l : List Char) : Bool := l.all pySpace

/-- Python `str.lstrip()` on a character list. -/
def lstrip (l : List Char) : List Char := l.dropWhile pySpace

/-- Python `str.rstrip()` on a character list. -/
def rstrip (l : List Char) : List Char := (l.reverse.dropWhile pySpace).reverse

/-- Python `str.strip()` on a character list. -/
def pyStrip (l : List Char) : List Char := rstrip (lstrip l)

/-- `s[i : i + sub.length] == sub` : the pattern `sub` occurs in `s` at
position `i`. -/
def matchesAt (s sub : List Char) (i : Nat) : Bool :=
  (s.drop i).take sub.length == sub

/-- Highest position `≤ i` at which `sub` occurs in `s`, scanning downward. -/
def rfindFrom (s sub : List Char) : Nat → Option Nat
  | 0 => if matchesAt s sub 0 then some 0 else none
  | i + 1 => if matchesAt s sub (i + 1) then some (i + 1) else rfindFrom s sub i

/-- Python `s.rfind(sub, 0, stop)`: highest `i` with `i + sub.length ≤ stop`
such that `sub` occurs in `s` at `i` (for non-empty `sub`). -/
def pyRfind (s sub : List Char) (stop : Nat) : Option Nat :=
  if sub.length ≤ stop then rfindFrom s sub (stop - sub.length) else none

/-- The delimiter priority list of `MessageUtils.split_message`
(src/config.py line 110): paragraph, line, sentence ends, comma, space. -/
def delimiters : List (List Char) :=
  [['\n', '\n'], ['\n'], ['.', ' '], ['!', ' '], ['?', ' '], [',', ' '], [' ']]

/-- The delimiter search of src/config.py lines 107-114: the first delimiter
(in priority order) found by `rfind` within the window yields
`pos + len(delimiter)`. -/
def findDelimPos (rem : List Char) (L : Nat) : List (List Char) → Option Nat
  | [] => none
  | d :: ds =>
    match pyRfind rem d L with
    | some pos => some (pos + d.length)
    | none => findDelimPos rem L ds

/-- The split position chosen for one loop iteration (src/config.py lines
107-118): the delimiter search result, or a hard cut at `L`. -/
def splitPos (rem : List Char) (L : Nat) : Nat :=
  (findDelimPos rem L delimiters).getD L

/-- The `while` loop of `split_message` (src/config.py lines 105-127),
with explicit fuel.  One iteration takes `remaining_text[:split_pos].strip()`
as a chunk (appended only if non-empty) and continues on
`remaining_text[split_pos:].strip()`; on exit, the remaining text is
appended if non-empty.  `none` means the fuel ran out. -/
def splitLoop (L : Nat) : Nat → List Char → Option (List (List Char))
  | 0, _ => none
  | fuel + 1, rem =>
    if rem.length ≤ L then
      some (if rem.isEmpty then [] else [rem])
    else
      match splitLoop L fuel (pyStrip (rem.drop (splitPos rem L))) with
      | none => none
      | some rest =>
        some (if (pyStrip (rem.take (splitPos rem L))).isEmpty then rest
              else pyStrip (rem.take (splitPos rem L)) :: rest)

/-- `MessageUtils.split_message` (src/config.py lines 96-129).  Texts of
length `≤ L` are returned whole; otherwise the splitting loop runs with
fuel `text.length + 1`, which suffices whenever `1 ≤ L`. -/
def split_message (text : List Char) (L : Nat) : Option (List (List Char)) :=
  if text.length ≤ L then some [text] else splitLoop L (text.length + 1) text

/-- The loop of `split_message` never finishes on this input, whatever the
fuel: the Python `while` loop diverges. -/
def SplitDiverges (text : List Char) (L : Nat) : Prop :=
  ∀ fuel, splitLoop L fuel text = none

/-! ### Python `str.replace(pat, '')` and the transcript builder -/

/-- Python `content.replace(pat, '')` for a non-empty pattern: scan left to
right, drop every occurrence of `pat`.  The scan consumes at least one
character per step, so `s.length` steps of fuel always suffice. -/
def replaceAllFuel (pat : List Char) : Nat → List Char → List Char
  | 0, s => s
  | fuel + 1, s =>
    match s with
    | [] => []
    | c :: rest =>
      if !pat.isEmpty && pat.isPrefixOf (c :: rest) then
        replaceAllFuel pat fuel ((c :: rest).drop pat.length)
      else
        c :: replaceAllFuel pat fuel rest

/-- Python `s.replace(pat, '')`. -/
def replaceAll (pat s : List Char) : List Char := replaceAllFuel pat s.length s

/-- `replaceAll` lifted to `String`. -/
def replaceAllStr (s pat : String) : String := ⟨replaceAll pat.data s.data⟩

/-- `pyStrip` lifted to `String`. -/
def pyStripStr (s : String) : String := ⟨pyStrip s.data⟩

/-- A Discord user as the transcript builder sees it: an id and a display
name. -/
structure DUser where
  id : Nat
  displayName : String
  deriving DecidableEq, Repr

/-- A Discord message as the transcript builder sees it. -/
structure DMessage where
  author : DUser
  content : String
  deriving DecidableEq, Repr

/-- One `{role, content}` entry of the conversation list. -/
structure Turn where
  role : String
  content : String
  deriving DecidableEq, Repr

/-- The bot's nickname mention string `<@!id>` (src/ai_handler.py line 110). -/
def mentionNick (botId : Nat) : String := "<@!" ++ Nat.repr botId ++ ">"

/-- The bot's plain mention string `<@id>` (src/ai_handler.py line 110). -/
def mentionPlain (botId : Nat) : String := "<@" ++ Nat.repr botId ++ ">"

/-- `MessageUtils.get_system_prompt` (src/config.py lines 131-143). -/
def get_system_prompt : Turn :=
  ⟨"system",
    "Ты — ИИ-ассистент в Discord. Твоя задача — поддерживать осмысленный и дружелюбный диалог. " ++
    "Отвечай на том же языке, на котором к тебе обращаются. " ++
    "В истории диалога сообщения от пользователей начинаются с их ника. " ++
    "Стимулируй размышления и задавай встречные вопросы для поддержания диалога. " ++
    "Будь полезным, информативным и дружелюбным."⟩

/-- The mention-stripping core of `ConversationManager.clean_message_content`
(src/ai_handler.py line 110): remove `<@!id>`, then `<@id>`, then strip. -/
def cleanCore (botId : Nat) (content : String) : String :=
  pyStripStr (replaceAllStr (replaceAllStr content (mentionNick botId)) (mentionPlain botId))

/-- `ConversationManager.clean_message_content` (src/ai_handler.py lines
107-116): strip bot mentions, and prefix a non-empty user message with the
author's display name. -/
def clean_message_content (botId : Nat) (content displayName role : String) : String :=
  if role = "user" ∧ cleanCore botId content ≠ "" then
    displayName ++ ": " ++ cleanCore botId content
  else cleanCore botId content

/-- The role tag of a history message (src/ai_handler.py line 129):
`assistant` for the bot's own messages, `user` otherwise. -/
def msgRole (botId : Nat) (msg : DMessage) : String :=
  if msg.author.id = botId then "assistant" else "user"

/-- One iteration of the history loop of `get_formatted_history`
(src/ai_handler.py lines 128-133): role by authorship, cleaned content,
dropped when empty after stripping. -/
def historyTurn (botId : Nat) (msg : DMessage) : Option Turn :=
  if pyStripStr (clean_message_content botId msg.content msg.author.displayName
      (msgRole botId msg)) ≠ "" then
    some ⟨msgRole botId msg,
      clean_message_content botId msg.content msg.author.displayName (msgRole botId msg)⟩
  else none

/-- `ConversationManager.get_formatted_history` (src/ai_handler.py lines
118-143).  `histNewestFirst` is the channel history as fetched (newest
first); the code reverses it, keeps the non-empty cleaned turns, appends
the triggering message as a user turn, and prepends the system prompt. -/
def get_formatted_history (botId : Nat) (histNewestFirst : List DMessage)
    (current : DMessage) : List Turn :=
  get_system_prompt ::
    (histNewestFirst.reverse.filterMap (historyTurn botId) ++
      [⟨"user", clean_message_content botId current.content current.author.displayName "user"⟩])

/-- `ConversationManager.get_simple_history` (src/ai_handler.py lines
172-177): the fixed system prompt and one name-prefixed user turn; no
channel state is consulted. -/
def get_simple_history (userMessage : String) (user : DUser) : List Turn :=
  [get_system_prompt, ⟨"user", user.displayName ++ ": " ++ userMessage⟩]

/-! ### `AIHandler.query_ai` error classification (src/ai_handler.py 41-95)

The HTTP call's outcome is abstracted into `ApiResult`: a parsed response
with its status and the extracted `choices[0].message.content` (if any), a
transport timeout (`asyncio.TimeoutError`), or any other exception.
`raise_for_status()` raises `ClientResponseError` exactly when the status
is `≥ 400`; the code checks 429 before calling it. -/

inductive ApiResult where
  | response (status : Nat) (content : Option String)
  | timeout
  | otherError
  deriving DecidableEq, Repr

/-- src/ai_handler.py line 45. -/
def netErrMsg : String := "❌ Ошибка: Проблема с сетевым подключением."

/-- src/ai_handler.py line 68. -/
def rateMsg : String := "⏰ Извините, сервис временно перегружен. Попробуйте через несколько минут."

/-- src/ai_handler.py line 78. -/
def emptyMsg : String := "🤔 Извините, получен пустой ответ от ИИ."

/-- src/ai_handler.py line 83. -/
def authMsg : String := "🔐 Ошибка авторизации API. Обратитесь к администратору."

/-- src/ai_handler.py line 85. -/
def unavailMsg : String := "🔧 Сервис ИИ временно недоступен. Попробуйте позже."

/-- src/ai_handler.py line 87: the status-dependent fallback message. -/
def genericMsg (status : Nat) : String :=
  "⚠️ Ошибка сервиса ИИ (код " ++ Nat.repr status ++ "). Попробуйте позже."

/-- src/ai_handler.py line 91. -/
def timeoutMsg : String := "⏱️ Извините, ИИ не ответил вовремя. Попробуйте упростить запрос."

/-- src/ai_handler.py line 95. -/
def unknownMsg : String := "💥 Произошла неожиданная ошибка. Попробуйте позже."

/-- `AIHandler.query_ai` (src/ai_handler.py lines 41-95).  Every branch
returns a string; no branch re-raises. -/
def query_ai (sessionActive : Bool) (r : ApiResult) : String :=
  if sessionActive = false then netErrMsg
  else
    match r with
    | .response status content =>
      if status = 429 then rateMsg
      else if 400 ≤ status then
        -- raise_for_status() raises ClientResponseError, caught at line 80
        if status = 401 then authMsg
        else if status = 503 then unavailMsg
        else genericMsg status
      else
        match content with
        | some c => if c ≠ "" then pyStripStr c else emptyMsg
        | none => emptyMsg
    | .timeout => timeoutMsg
    | .otherError => unknownMsg

/-! ### The orchestrator's typing-task registry (src/main.py)

`DiscordLLMBot.typing_tasks : Dict[int, asyncio.Task]` (line 27) maps a
channel id to the typing-indicator task started for it.  `on_message`
assigns `typing_tasks[channel_id] = create_task(...)` (line 292) — a plain
dict overwrite — and its `finally` block (lines 318-322) cancels and
removes the registered task.  The model keeps, besides the registry, the
set of indicator tasks that have been started and not cancelled (`live`),
each tagged with its channel; task ids are allocated fresh. -/

structure OrchState where
  nextId : Nat
  /-- started-and-not-cancelled indicator tasks: (task id, channel id). -/
  live : List (Nat × Nat)
  /-- the `typing_tasks` dict as an association list channel ↦ task id. -/
  registry : List (Nat × Nat)
  deriving DecidableEq, Repr

/-- The registry action of line 292: start a fresh indicator task for
channel `c` and store it, overwriting any previous binding. -/
def startTurn (c : Nat) (s : OrchState) : OrchState :=
  { nextId := s.nextId + 1
    live := (s.nextId, c) :: s.live
    registry := (c, s.nextId) :: s.registry.filter (fun p => p.1 ≠ c) }

/-- The registry action of lines 318-322: if channel `c` has a registered
task, cancel it and delete the entry. -/
def finishTurn (c : Nat) (s : OrchState) : OrchState :=
  match s.registry.lookup c with
  | some t =>
    { s with
      live := s.live.filter (fun p => p.1 ≠ t)
      registry := s.registry.filter (fun p => p.1 ≠ c) }
  | none => s

/-- Initial state: no tasks, empty registry (src/main.py line 27). -/
def initOrch : OrchState := ⟨0, [], []⟩

/-- States of the registry reachable by interleaved turn starts and
finishes (concurrent `on_message` handlers on the single event loop). -/
inductive ReachableOrch : OrchState → Prop where
  | init : ReachableOrch initOrch
  | start (c : Nat) {s : OrchState} : ReachableOrch s → ReachableOrch (startTurn c s)
  | finish (c : Nat) {s : OrchState} : ReachableOrch s → ReachableOrch (finishTurn c s)

/-- Number of live indicator tasks for channel `c`. -/
def liveCount (c : Nat) (s : OrchState) : Nat :=
  (s.live.filter (fun p => p.2 = c)).length

/-! ### The per-turn handlers (src/main.py 278-328 and src/bot.py 156-175)

Each handler body is modelled as the linear trace of surface actions it
performs, given which effects succeed: `pipelineOk` is whether the
history-fetch / completion / reply pipeline runs without an exception, and
`reactAllowed` whether reaction calls are permitted (`discord.Forbidden`
otherwise, which the code catches where it does). -/

inductive Act where
  | registerTyping
  | addReactWait
  | reply
  | addReactOk
  | addReactErr
  | cancelTyping
  | removeReactWait
  | raiseOut
  deriving DecidableEq, Repr

/-- `DiscordLLMBot.on_message` (src/main.py lines 278-328), after the
self-author and mention guards: register the typing task, try to add "⏳"
(Forbidden caught), run the pipeline — on success reply and add "✅", on
exception try to add "❌" (Forbidden caught) — and in `finally` cancel the
registered typing task and try to remove "⏳".  No branch re-raises. -/
def on_message_main (pipelineOk reactAllowed : Bool) : List Act :=
  [Act.registerTyping] ++
  (if reactAllowed then [Act.addReactWait] else []) ++
  (if pipelineOk then [Act.reply, Act.addReactOk]
   else if reactAllowed then [Act.addReactErr] else []) ++
  [Act.cancelTyping] ++
  (if reactAllowed then [Act.removeReactWait] else [])

/-- `DiscordAIBot.on_message` (src/bot.py lines 156-175), after the same
guards: add "⏳", run the pipeline; on success reply and remove "⏳"; on any
exception add "❌" and `raise` — the exception leaves the handler. -/
def on_message_bot (pipelineOk : Bool) : List Act :=
  [Act.addReactWait] ++
  (if pipelineOk then [Act.reply, Act.removeReactWait]
   else [Act.addReactErr, Act.raiseOut])

/-! ### Configuration validation and process exit codes

`BotConfig.validate` (src/config.py lines 45-50) raises `ValueError` when
either secret is falsy (absent or empty).  `DiscordLLMBot.start_bot`
(src/main.py lines 366-382) calls `validate` and `run` inside a `try`
whose handlers catch `LoginFailure`, `ValueError`, `KeyboardInterrupt` and
any other `Exception` — so `start_bot` itself never raises.  `main`
(src/main.py lines 385-407) returns `1` only when constructing the config
or the bot raises, and `0` otherwise; `exit(main())` makes that the
process exit code. -/

/-- The two required secrets of `BotConfig` (src/config.py lines 20-21). -/
structure Secrets where
  discord_token : Option String
  ai_api_key : Option String
  deriving DecidableEq, Repr

/-- Python truthiness of an optional string: `None` and `""` are falsy. -/
def truthy : Option String → Bool
  | none => false
  | some s => !(s = "")

/-- `BotConfig.validate` (src/config.py lines 45-50): `ValueError` when a
required secret is missing. -/
def validate (c : Secrets) : Except String Unit :=
  if truthy c.discord_token = false then
    Except.error "Переменная DISCORD_BOT_TOKEN не установлена в .env файле."
  else if truthy c.ai_api_key = false then
    Except.error "Переменная AI_PROVIDER_API_KEY не установлена в .env файле."
  else Except.ok ()

/-- Outcome of `self.run(...)` inside `start_bot`, as an abstract event. -/
inductive RunOutcome where
  | normal
  | loginFailure
  | keyboardInterrupt
  | otherException
  deriving DecidableEq, Repr

/-- `DiscordLLMBot.start_bot` (src/main.py lines 366-382).  The `error`
side would be an exception escaping to the caller; every branch of the
source is caught, so the result is always `ok`. -/
def start_bot (c : Secrets) (r : RunOutcome) : Except String Unit :=
  match validate c with
  | Except.error _ => Except.ok ()   -- `except ValueError`: logged, swallowed
  | Except.ok _ =>
    match r with
    | RunOutcome.normal => Except.ok ()
    | RunOutcome.loginFailure => Except.ok ()      -- `except discord.LoginFailure`
    | RunOutcome.keyboardInterrupt => Except.ok () -- `except KeyboardInterrupt`
    | RunOutcome.otherException => Except.ok ()    -- `except Exception`

/-- `main` (src/main.py lines 385-407) as the process exit code:
`ctor` is the outcome of `BotConfig()` / `DiscordLLMBot(...)`
construction; an exception there returns `1`, otherwise `start_bot` runs
and `0` is returned. -/
def main_exit (ctor : Except String Secrets) (r : RunOutcome) : Nat :=
  match ctor with
  | Except.error _ => 1
  | Except.ok c =>
    match start_bot c r with
    | Except.error _ => 1
    | Except.ok _ => 0

/-- `chunks` reproduce `text` once the whitespace dropped at the split
boundaries (including the two outer edges) is reinserted: `text` is the
chunks in order, interleaved with all-whitespace fillers. -/
def Rejoins : List (List Char) → List Char → Prop
  | [], t => allSpace t = true
  | c :: cs, t => ∃ w rest, allSpace w = true ∧ t = w ++ c ++ rest ∧ Rejoins cs rest

/-! ### Properties of the Python string primitives -/

theorem rstrip_eq_rdropWhile (l : List Char) : rstrip l = List.rdropWhile pySpace l := rfl

theorem lstrip_eq_dropWhile (l : List Char) : lstrip l = List.dropWhile pySpace l := rfl

theorem allSpace_iff (l : List Char) : allSpace l = true ↔ ∀ x ∈ l, pySpace x := by
  simp [allSpace, List.all_eq_true]

theorem allSpace_append (a b : List Char) :
    allSpace (a ++ b) = (allSpace a && allSpace b) := by
  simp [allSpace, List.all_append]

theorem rdropWhile_append_rtakeWhile (p : Char → Bool) (m : List Char) :
    List.rdropWhile p m ++ List.rtakeWhile p m = m := by
  rw [List.rdropWhile, List.rtakeWhile, ← List.reverse_append,
    List.takeWhile_append_dropWhile, List.reverse_reverse]

/-- Any list is whitespace, then its strip, then whitespace. -/
theorem pyStrip_decomp (l : List Char) :
    ∃ w₁ w₂, allSpace w₁ = true ∧ allSpace w₂ = true ∧ l = w₁ ++ pyStrip l ++ w₂ := by
  refine ⟨l.takeWhile pySpace, (lstrip l).rtakeWhile pySpace, ?_, ?_, ?_⟩
  · exact (allSpace_iff _).mpr fun x hx => List.mem_takeWhile_imp hx
  · exact (allSpace_iff _).mpr fun x hx => List.mem_rtakeWhile_imp hx
  · have h1 : l.takeWhile pySpace ++ lstrip l = l :=
      List.takeWhile_append_dropWhile pySpace l
    have h2 : pyStrip l ++ (lstrip l).rtakeWhile pySpace = lstrip l := by
      rw [pyStrip, rstrip_eq_rdropWhile]
      exact rdropWhile_append_rtakeWhile pySpace (lstrip l)
    rw [List.append_assoc, h2, h1]

theorem pyStrip_length_le (l : List Char) : (pyStrip l).length ≤ l.length := by
  obtain ⟨w₁, w₂, -, -, hl⟩ := pyStrip_decomp l
  have hlen := congrArg List.length hl
  simp [List.length_append] at hlen
  omega

theorem pyStrip_eq_nil_of_allSpace {l : List Char} (h : pyStrip l = [])
    : allSpace l = true := by
  obtain ⟨w₁, w₂, hw₁, hw₂, hl⟩ := pyStrip_decomp l
  rw [hl, h]
  simp [allSpace_append, hw₁, hw₂]

theorem pyStrip_ne_nil {l : List Char} (h : allSpace l = false) : pyStrip l ≠ [] := by
  intro hnil
  rw [pyStrip_eq_nil_of_allSpace hnil] at h
  simp at h

theorem lstrip_lstrip (l : List Char) : lstrip (lstrip l) = lstrip l := by
  rw [lstrip_eq_dropWhile, lstrip_eq_dropWhile]
  exact List.dropWhile_idempotent pySpace l

theorem rstrip_rstrip (l : List Char) : rstrip (rstrip l) = rstrip l := by
  rw [rstrip_eq_rdropWhile, rstrip_eq_rdropWhile]
  exact List.rdropWhile_idempotent pySpace l

theorem lstrip_cons_of_neg {c : Char} {t : List Char} (h : pySpace c = false) :
    lstrip (c :: t) = c :: t := by
  simp [lstrip, List.dropWhile_cons, h]

theorem lstrip_head_false {c : Char} {t : List Char} (h : lstrip (c :: t) = c :: t) :
    pySpace c = false := by
  cases hc : pySpace c with
  | false => rfl
  | true =>
    rw [lstrip, List.dropWhile_cons, if_pos hc] at h
    have hle : (List.dropWhile pySpace t).length ≤ t.length :=
      List.IsSuffix.length_le (List.dropWhile_suffix pySpace)
    rw [h] at hle
    simp at hle

/-- A left-stripped list stays left-stripped after right-stripping. -/
theorem lstrip_rstrip {m : List Char} (hm : lstrip m = m) :
    lstrip (rstrip m) = rstrip m := by
  obtain ⟨w, hw⟩ : rstrip m <+: m := List.rdropWhile_prefix pySpace m
  cases hr : rstrip m with
  | nil => rfl
  | cons c t =>
    rw [hr] at hw
    have hc : pySpace c = false := by
      apply lstrip_head_false (t := t ++ w)
      have : m = c :: (t ++ w) := by rw [← hw]; simp
      rw [← this]
      exact hm
    exact lstrip_cons_of_neg hc

theorem pyStrip_idem (l : List Char) : pyStrip (pyStrip l) = pyStrip l := by
  have h1 : lstrip (rstrip (lstrip l)) = rstrip (lstrip l) := lstrip_rstrip (lstrip_lstrip l)
  show rstrip (lstrip (rstrip (lstrip l))) = rstrip (lstrip l)
  rw [h1, rstrip_rstrip]

/-! ### Bounds on the chosen split position -/

theorem rfindFrom_le {s sub : List Char} : ∀ {i p : Nat}, rfindFrom s sub i = some p → p ≤ i
  | 0, p, h => by
    simp only [rfindFrom] at h
    split at h
    · simp at h
      omega
    · simp at h
  | i + 1, p, h => by
    simp only [rfindFrom] at h
    split at h
    · simp at h
      omega
    · exact Nat.le_trans (rfindFrom_le h) (Nat.le_succ i)

theorem pyRfind_bound {s sub : List Char} {stop p : Nat}
    (h : pyRfind s sub stop = some p) : p + sub.length ≤ stop := by
  by_cases hc : sub.length ≤ stop
  · rw [pyRfind, if_pos hc] at h
    have := rfindFrom_le h
    omega
  · rw [pyRfind, if_neg hc] at h
    simp at h

theorem findDelimPos_le {rem : List Char} {L sp : Nat} :
    ∀ {ds : List (List Char)}, findDelimPos rem L ds = some sp → sp ≤ L
  | [], h => by simp [findDelimPos] at h
  | d :: ds, h => by
    rw [findDelimPos] at h
    cases hp : pyRfind rem d L with
    | some pos =>
      rw [hp] at h
      simp at h
      have := pyRfind_bound hp
      omega
    | none =>
      rw [hp] at h
      exact findDelimPos_le h

theorem findDelimPos_pos {rem : List Char} {L sp : Nat} :
    ∀ {ds : List (List Char)}, (∀ d ∈ ds, 0 < d.length) →
      findDelimPos rem L ds = some sp → 0 < sp
  | [], _, h => by simp [findDelimPos] at h
  | d :: ds, hd, h => by
    rw [findDelimPos] at h
    cases hp : pyRfind rem d L with
    | some pos =>
      rw [hp] at h
      simp at h
      have := hd d (by simp)
      omega
    | none =>
      rw [hp] at h
      exact findDelimPos_pos (fun x hx => hd x (by simp [hx])) h

theorem splitPos_le (rem : List Char) (L : Nat) : splitPos rem L ≤ L := by
  rw [splitPos]
  cases hf : findDelimPos rem L delimiters with
  | none => simp
  | some sp => simpa using findDelimPos_le hf

theorem splitPos_pos (rem : List Char) {L : Nat} (hL : 1 ≤ L) : 1 ≤ splitPos rem L := by
  rw [splitPos]
  cases hf : findDelimPos rem L delimiters with
  | none => simpa using hL
  | some sp =>
    have hd : ∀ d ∈ delimiters, 0 < d.length := by decide
    simpa using findDelimPos_pos hd hf

/-! ### The splitting loop: chunk bound, termination, rejoin, chunk shape -/

theorem splitLoop_length_le {L : Nat} :
    ∀ {fuel : Nat} {rem : List Char} {res : List (List Char)},
      splitLoop L fuel rem = some res → ∀ c ∈ res, c.length ≤ L
  | 0, rem, res, h => by simp [splitLoop] at h
  | fuel + 1, rem, res, h => by
    rw [splitLoop] at h
    by_cases hle : rem.length ≤ L
    · rw [if_pos hle] at h
      injection h with h
      subst h
      intro c hc
      split at hc
      · simp at hc
      · simp at hc
        subst hc
        exact hle
    · rw [if_neg hle] at h
      cases hrec : splitLoop L fuel (pyStrip (rem.drop (splitPos rem L))) with
      | none => rw [hrec] at h; simp at h
      | some rest =>
        rw [hrec] at h
        simp only [Option.some.injEq] at h
        subst h
        intro c hc
        have hrest : ∀ c ∈ rest, c.length ≤ L := fun c hc => splitLoop_length_le hrec c hc
        split at hc
        · exact hrest c hc
        · rcases List.mem_cons.mp hc with hc | hc
          · subst hc
            calc (pyStrip (rem.take (splitPos rem L))).length
                ≤ (rem.take (splitPos rem L)).length := pyStrip_length_le _
              _ ≤ splitPos rem L := by
                  rw [List.length_take]
                  omega
              _ ≤ L := splitPos_le rem L
          · exact hrest c hc

theorem splitLoop_isSome {L : Nat} (hL : 1 ≤ L) :
    ∀ (fuel : Nat) (rem : List Char), rem.length < fuel → (splitLoop L fuel rem).isSome
  | 0, rem, h => by omega
  | fuel + 1, rem, hlt => by
    rw [splitLoop]
    by_cases hle : rem.length ≤ L
    · rw [if_pos hle]
      simp
    · rw [if_neg hle]
      have hsp := splitPos_pos rem hL
      have h1 := pyStrip_length_le (rem.drop (splitPos rem L))
      have h2 : (rem.drop (splitPos rem L)).length = rem.length - splitPos rem L :=
        List.length_drop _ _
      have hlen : (pyStrip (rem.drop (splitPos rem L))).length < fuel := by omega
      have hsome := splitLoop_isSome hL fuel (pyStrip (rem.drop (splitPos rem L))) hlen
      cases hrec : splitLoop L fuel (pyStrip (rem.drop (splitPos rem L))) with
      | none => rw [hrec] at hsome; simp at hsome
      | some rest => simp

theorem rejoins_prepend {cs : List (List Char)} {t w : List Char}
    (hw : allSpace w = true) (h : Rejoins cs t) : Rejoins cs (w ++ t) := by
  cases cs with
  | nil =>
    show allSpace (w ++ t) = true
    rw [allSpace_append, hw, h]
    rfl
  | cons c cs =>
    obtain ⟨w', rest, hw', ht, hr⟩ := h
    refine ⟨w ++ w', rest, ?_, ?_, hr⟩
    · rw [allSpace_append, hw, hw']
      rfl
    · rw [ht]
      simp

theorem rejoins_append {cs : List (List Char)} {t w : List Char}
    (hw : allSpace w = true) (h : Rejoins cs t) : Rejoins cs (t ++ w) := by
  induction cs generalizing t with
  | nil =>
    show allSpace (t ++ w) = true
    rw [allSpace_append, h, hw]
    rfl
  | cons c cs ih =>
    obtain ⟨w', rest, hw', ht, hr⟩ := h
    refine ⟨w', rest ++ w, hw', ?_, ih hr⟩
    rw [ht]
    simp

theorem splitLoop_rejoins {L : Nat} :
    ∀ {fuel : Nat} {rem : List Char} {res : List (List Char)},
      splitLoop L fuel rem = some res → Rejoins res rem
  | 0, rem, res, h => by simp [splitLoop] at h
  | fuel + 1, rem, res, h => by
    rw [splitLoop] at h
    by_cases hle : rem.length ≤ L
    · rw [if_pos hle] at h
      injection h with h
      subst h
      cases hemp : rem.isEmpty with
      | true =>
        rw [if_pos rfl]
        have : rem = [] := by
          cases rem
          · rfl
          · simp [List.isEmpty] at hemp
        rw [this]
        rfl
      | false =>
        rw [if_neg (by simp)]
        exact ⟨[], [], rfl, by simp, rfl⟩
    · rw [if_neg hle] at h
      cases hrec : splitLoop L fuel (pyStrip (rem.drop (splitPos rem L))) with
      | none => rw [hrec] at h; simp at h
      | some rest =>
        rw [hrec] at h
        simp only [Option.some.injEq] at h
        obtain ⟨w₁, w₂, hw₁, hw₂, hd1⟩ := pyStrip_decomp (rem.take (splitPos rem L))
        obtain ⟨w₃, w₄, hw₃, hw₄, hd2⟩ := pyStrip_decomp (rem.drop (splitPos rem L))
        have hih : Rejoins rest (pyStrip (rem.drop (splitPos rem L))) := splitLoop_rejoins hrec
        have hdrop : Rejoins rest (rem.drop (splitPos rem L)) := by
          rw [hd2]
          exact rejoins_append hw₄ (rejoins_prepend hw₃ hih)
        subst h
        cases hemp : (pyStrip (rem.take (splitPos rem L))).isEmpty with
        | false =>
          rw [if_neg (by simp)]
          refine ⟨w₁, w₂ ++ rem.drop (splitPos rem L), hw₁, ?_, ?_⟩
          · conv_lhs => rw [← List.take_append_drop (splitPos rem L) rem, hd1]
            simp
          · exact rejoins_prepend hw₂ hdrop
        | true =>
          rw [if_pos rfl]
          have hchunk : pyStrip (rem.take (splitPos rem L)) = [] := by
            cases hc : pyStrip (rem.take (splitPos rem L))
            · rfl
            · rw [hc] at hemp; simp [List.isEmpty] at hemp
          have htake : allSpace (rem.take (splitPos rem L)) = true := by
            rw [hd1, hchunk]
            simp [allSpace_append, hw₁, hw₂]
          have := rejoins_prepend htake hdrop
          rwa [List.take_append_drop (splitPos rem L) rem] at this

/-- Chunks produced by the loop from a stripped remainder are non-empty and
themselves stripped. -/
theorem splitLoop_stripped {L : Nat} :
    ∀ {fuel : Nat} {rem : List Char} {res : List (List Char)},
      pyStrip rem = rem → splitLoop L fuel rem = some res →
      ∀ c ∈ res, c ≠ [] ∧ pyStrip c = c
  | 0, rem, res, _, h => by simp [splitLoop] at h
  | fuel + 1, rem, res, hstr, h => by
    rw [splitLoop] at h
    by_cases hle : rem.length ≤ L
    · rw [if_pos hle] at h
      injection h with h
      subst h
      intro c hc
      cases hemp : rem.isEmpty with
      | true => rw [hemp, if_pos rfl] at hc; simp at hc
      | false =>
        rw [hemp] at hc
        simp only [Bool.false_eq_true, if_false] at hc
        simp only [List.mem_singleton] at hc
        subst hc
        refine ⟨?_, hstr⟩
        intro hnil
        rw [hnil] at hemp
        simp [List.isEmpty] at hemp
    · rw [if_neg hle] at h
      cases hrec : splitLoop L fuel (pyStrip (rem.drop (splitPos rem L))) with
      | none => rw [hrec] at h; simp at h
      | some rest =>
        rw [hrec] at h
        simp only [Option.some.injEq] at h
        subst h
        have hrest : ∀ c ∈ rest, c ≠ [] ∧ pyStrip c = c :=
          splitLoop_stripped (pyStrip_idem _) hrec
        intro c hc
        cases hemp : (pyStrip (rem.take (splitPos rem L))).isEmpty with
        | true => rw [hemp, if_pos rfl] at hc; exact hrest c hc
        | false =>
          rw [hemp] at hc
          simp only [Bool.false_eq_true, if_false] at hc
          rcases List.mem_cons.mp hc with hc | hc
          · subst hc
            refine ⟨?_, pyStrip_idem _⟩
            intro hnil
            rw [hnil] at hemp
            simp [List.isEmpty] at hemp
          · exact hrest c hc

/-- At limit `0`, the loop makes no progress on a stripped, non-empty
remainder: the Python `while` loop runs forever. -/
theorem splitLoop_zero_diverges {rem : List Char}
    (hstr : pyStrip rem = rem) (hne : rem ≠ []) :
    ∀ fuel, splitLoop 0 fuel rem = none := by
  intro fuel
  induction fuel with
  | zero => rfl
  | succ n ih =>
    rw [splitLoop]
    have hlen : ¬rem.length ≤ 0 := by
      cases rem
      · exact absurd rfl hne
      · simp
    rw [if_neg hlen]
    have hsp : splitPos rem 0 = 0 := by
      rw [splitPos]
      have : findDelimPos rem 0 delimiters = none := by
        simp [delimiters, findDelimPos, pyRfind]
      rw [this]
      rfl
    rw [hsp]
    simp only [List.drop_zero]
    rw [hstr, ih]

/-- Every chunk of a split of a text longer than the limit is non-empty and
carries no leading or trailing whitespace. -/
theorem split_message_stripped {text : List Char} {L : Nat} {res : List (List Char)}
    (hgt : L < text.length) (h : split_message text L = some res) :
    ∀ c ∈ res, c ≠ [] ∧ pyStrip c = c := by
  rw [split_message, if_neg (by omega)] at h
  rw [splitLoop, if_neg (by omega)] at h
  cases hrec : splitLoop L text.length (pyStrip (text.drop (splitPos text L))) with
  | none => rw [hrec] at h; simp at h
  | some rest =>
    rw [hrec] at h
    simp only [Option.some.injEq] at h
    subst h
    have hrest : ∀ c ∈ rest, c ≠ [] ∧ pyStrip c = c :=
      splitLoop_stripped (pyStrip_idem _) hrec
    intro c hc
    cases hemp : (pyStrip (text.take (splitPos text L))).isEmpty with
    | true => rw [hemp, if_pos rfl] at hc; exact hrest c hc
    | false =>
      rw [hemp] at hc
      simp only [Bool.false_eq_true, if_false] at hc
      rcases List.mem_cons.mp hc with hc | hc
      · subst hc
        refine ⟨?_, pyStrip_idem _⟩
        intro hnil
        rw [hnil] at hemp
        simp [List.isEmpty] at hemp
      · exact hrest c hc

/-- The split succeeds and rejoins to the input: chunks within the limit,
whitespace only dropped at the boundaries. -/
def SplitOk (text : List Char) (L : Nat) : Prop :=
  ∃ chunks, split_message text L = some chunks ∧
    (∀ c ∈ chunks, c.length ≤ L) ∧ Rejoins chunks text

/-- Shape of the split result: a short text comes back whole as the one
chunk; a long text yields non-empty stripped chunks, at least one of them
when the text is not entirely whitespace. -/
def SplitShapeOk (text : List Char) (L : Nat) : Prop :=
  (text.length ≤ L → split_message text L = some [text]) ∧
  (L < text.length → ∃ chunks, split_message text L = some chunks ∧
    (∀ c ∈ chunks, c ≠ [] ∧ pyStrip c = c) ∧
    (allSpace text = false → chunks ≠ []))

/-- C1 (amended to limits `L ≥ 1`): `split_message(T, L)` returns chunks
each of length at most `L`, and concatenating the chunks in order, allowing
only whitespace to be dropped at the split boundaries, reproduces `T`. -/
theorem c1_split_bound_and_rejoin (text : List Char) (L : Nat) (hL : 1 ≤ L) :
    SplitOk text L := by
  rw [SplitOk]
  by_cases hle : text.length ≤ L
  · refine ⟨[text], by rw [split_message, if_pos hle], ?_, ?_⟩
    · intro c hc
      simp at hc
      subst hc
      exact hle
    · exact ⟨[], [], rfl, by simp, rfl⟩
  · have hs := splitLoop_isSome hL (text.length + 1) text (by omega)
    cases hrec : splitLoop L (text.length + 1) text with
    | none => rw [hrec] at hs; simp at hs
    | some res =>
      have hsm : split_message text L = some res := by
        rw [split_message, if_neg hle]
        exact hrec
      exact ⟨res, hsm, fun c hc => splitLoop_length_le hrec c hc, splitLoop_rejoins hrec⟩

/-- Witness for C1 at the concrete input `"hi yo"`, limit 3. -/
theorem c1_split_bound_and_rejoin_witness : SplitOk ['h', 'i', ' ', 'y', 'o'] 3 :=
  c1_split_bound_and_rejoin ['h', 'i', ' ', 'y', 'o'] 3 (by decide)

/-- Counterexample to C1 as stated over every limit: at limit `0`, the
split of `"ab"` never returns — the loop body maps the remainder to itself,
so no amount of fuel produces a result. -/
theorem c1_zero_limit_counterexample :
    split_message ['a', 'b'] 0 = none ∧ SplitDiverges ['a', 'b'] 0 := by
  refine ⟨?_, fun fuel => splitLoop_zero_diverges rfl (by simp) fuel⟩
  rw [split_message, if_neg (by decide)]
  exact splitLoop_zero_diverges rfl (by simp) 3

/-- C9 (amended to limits `L ≥ 1`): `split_message` terminates with a
finite chunk sequence; determinism holds by construction, the embedding
being a pure function of `(text, L)`. -/
theorem c9_split_terminates (text : List Char) (L : Nat) (hL : 1 ≤ L) :
    (split_message text L).isSome = true := by
  rw [split_message]
  by_cases hle : text.length ≤ L
  · rw [if_pos hle]
    rfl
  · rw [if_neg hle]
    exact splitLoop_isSome hL (text.length + 1) text (by omega)

/-- Witness for C9 at the concrete input `"ab"`, limit 1. -/
theorem c9_split_terminates_witness : (split_message ['a', 'b'] 1).isSome = true :=
  c9_split_terminates ['a', 'b'] 1 (by decide)

/-- Counterexample to C9 as stated over every limit: at limit `0` the loop
on `"a"` diverges, so the call does not terminate. -/
theorem c9_nontermination_counterexample :
    SplitDiverges ['a'] 0 ∧ split_message ['a'] 0 = none := by
  refine ⟨fun fuel => splitLoop_zero_diverges rfl (by simp) fuel, ?_⟩
  rw [split_message, if_neg (by decide)]
  exact splitLoop_zero_diverges rfl (by simp) 2

/-- C10 (amended): for text of length ≤ `maxLength` (including the empty
string) `split_message` returns exactly the single unmodified input; for
longer text every chunk is non-empty with no leading or trailing
whitespace, and at least one chunk is returned whenever the text is not
entirely whitespace — but an entirely-whitespace long text yields zero
chunks. -/
theorem c10_split_shape (text : List Char) (L : Nat) (hL : 1 ≤ L) :
    SplitShapeOk text L := by
  constructor
  · intro hle
    rw [split_message, if_pos hle]
  · intro hgt
    have hs := splitLoop_isSome hL (text.length + 1) text (by omega)
    cases hrec : splitLoop L (text.length + 1) text with
    | none => rw [hrec] at hs; simp at hs
    | some res =>
      have hsm : split_message text L = some res := by
        rw [split_message, if_neg (by omega)]
        exact hrec
      refine ⟨res, hsm, split_message_stripped hgt hsm, ?_⟩
      intro hns hnil
      have hrj := splitLoop_rejoins hrec
      rw [hnil] at hrj
      have : allSpace text = true := hrj
      rw [this] at hns
      simp at hns

/-- Witness for C10 at the concrete input `"ab"`, limit 1. -/
theorem c10_split_shape_witness : SplitShapeOk ['a', 'b'] 1 :=
  c10_split_shape ['a', 'b'] 1 (by decide)

/-- Counterexample to C10 as stated: a whitespace-only text longer than the
limit is split into zero chunks. -/
theorem c10_empty_result_counterexample :
    split_message [' ', ' ', ' '] 2 = some [] := by rfl

/-! ### Transcript building (C2, C8) -/

theorem string_eq_empty_iff (s : String) : s = "" ↔ s.data = [] := by
  cases s with
  | mk d =>
    constructor
    · intro h
      exact congrArg String.data h
    · intro h
      cases h
      rfl

theorem filterMap_eq_map_of_forall {α β : Type} (f : α → Option β) (g : α → β)
    (l : List α) (h : ∀ a ∈ l, f a = some (g a)) : l.filterMap f = l.map g := by
  induction l with
  | nil => rfl
  | cons a t ih =>
    rw [List.filterMap_cons, h a (List.mem_cons_self a t), List.map_cons,
      ih fun x hx => h x (List.mem_cons_of_mem a hx)]

/-- A display-name-prefixed content never strips to the empty string: the
separator `": "` contributes a non-whitespace character. -/
theorem prefixed_strip_ne_empty (name core : String) :
    pyStripStr (name ++ ": " ++ core) ≠ "" := by
  rw [Ne, pyStripStr, string_eq_empty_iff]
  show ¬pyStrip (name ++ ": " ++ core).data = []
  apply pyStrip_ne_nil
  rw [String.data_append, String.data_append, allSpace_append, allSpace_append]
  have hsep : allSpace ": ".data = false := by decide
  rw [hsep]
  simp

/-- C2: with history included, `N` prior messages that are non-empty after
cleaning and not authored by the bot produce a transcript of length exactly
`N + 2`: the system turn, the prior messages oldest-first each prefixed
with its author's display name, and the triggering message as the final
user turn. -/
theorem c2_history_transcript (botId limit : Nat) (hist : List DMessage)
    (current : DMessage) (hlen : hist.length ≤ limit)
    (hmsg : ∀ m ∈ hist, m.author.id ≠ botId ∧ cleanCore botId m.content ≠ "") :
    get_formatted_history botId hist current =
      get_system_prompt ::
        (hist.reverse.map (fun m =>
            ⟨"user", m.author.displayName ++ ": " ++ cleanCore botId m.content⟩) ++
          [⟨"user",
            clean_message_content botId current.content current.author.displayName "user"⟩]) ∧
    (get_formatted_history botId hist current).length = hist.length + 2 := by
  have hmap : hist.reverse.filterMap (historyTurn botId) =
      hist.reverse.map (fun m =>
        (⟨"user", m.author.displayName ++ ": " ++ cleanCore botId m.content⟩ : Turn)) := by
    apply filterMap_eq_map_of_forall
    intro m hm
    obtain ⟨hid, hcc⟩ := hmsg m (List.mem_reverse.mp hm)
    have hrole : msgRole botId m = "user" := by
      rw [msgRole, if_neg hid]
    have hclean : clean_message_content botId m.content m.author.displayName "user" =
        m.author.displayName ++ ": " ++ cleanCore botId m.content := by
      rw [clean_message_content, if_pos ⟨rfl, hcc⟩]
    rw [historyTurn, hrole, hclean, if_pos (prefixed_strip_ne_empty _ _)]
  have hfirst : get_formatted_history botId hist current =
      get_system_prompt ::
        (hist.reverse.map (fun m =>
            ⟨"user", m.author.displayName ++ ": " ++ cleanCore botId m.content⟩) ++
          [⟨"user",
            clean_message_content botId current.content current.author.displayName "user"⟩]) := by
    rw [get_formatted_history, hmap]
  refine ⟨hfirst, ?_⟩
  rw [hfirst]
  simp [List.length_append, List.length_map, List.length_reverse]

/-- Witness for C2: one prior message by Bob, triggering message by Alice,
bot id 1, configured limit 15. -/
theorem c2_history_transcript_witness :
    (get_formatted_history 1 [⟨⟨2, "Bob"⟩, "yo"⟩] ⟨⟨3, "Alice"⟩, "hi"⟩).length =
      ([(⟨⟨2, "Bob"⟩, "yo"⟩ : DMessage)] : List DMessage).length + 2 :=
  (c2_history_transcript 1 15 [⟨⟨2, "Bob"⟩, "yo"⟩] ⟨⟨3, "Alice"⟩, "hi"⟩ (by decide)
    (by decide)).2

/-- C8: the minimal transcript is exactly the fixed system turn followed by
the one name-prefixed user turn — length 2, and by the shape of
`get_simple_history` (a function of the message and user alone) it is
independent of any channel or surface state. -/
theorem c8_simple_transcript (userMessage : String) (user : DUser) :
    get_simple_history userMessage user =
      [get_system_prompt, ⟨"user", user.displayName ++ ": " ++ userMessage⟩] ∧
    (get_simple_history userMessage user).length = 2 :=
  ⟨rfl, rfl⟩

/-! ### Error classification of the completion call (C3, C4) -/

/-- Counterexample to C3 as stated: HTTP 403 does not map to the fixed
auth-failure message, and HTTP 500 does not map to the fixed
service-unavailable message — both get the status-dependent generic
message. -/
theorem c3_misclassification_counterexample :
    query_ai true (ApiResult.response 403 none) = genericMsg 403 ∧
    genericMsg 403 ≠ authMsg ∧
    query_ai true (ApiResult.response 500 none) = genericMsg 500 ∧
    genericMsg 500 ≠ unavailMsg :=
  ⟨rfl, by decide, rfl, by decide⟩

/-- C3 (amended): `query_ai` returns the auth-failure message for 401 only,
the service-unavailable message for 503 only, the status-dependent generic
message for every other HTTP error status (403 and the remaining 5xx
included), the timeout message on transport timeout and the unknown-error
message on any other exception; every branch returns, none raises. -/
theorem c3_error_classification (s : Nat) (content : Option String)
    (h400 : 400 ≤ s) (h429 : s ≠ 429) (h401 : s ≠ 401) (h503 : s ≠ 503) :
    query_ai true (ApiResult.response s content) = genericMsg s ∧
    query_ai true (ApiResult.response 401 content) = authMsg ∧
    query_ai true (ApiResult.response 503 content) = unavailMsg ∧
    query_ai true ApiResult.timeout = timeoutMsg ∧
    query_ai true ApiResult.otherError = unknownMsg := by
  refine ⟨?_, rfl, rfl, rfl, rfl⟩
  simp [query_ai, h429, h401, h503, h400]

/-- Witness for C3 (amended) at status 500. -/
theorem c3_error_classification_witness :
    query_ai true (ApiResult.response 500 none) = genericMsg 500 :=
  (c3_error_classification 500 none (by decide) (by decide) (by decide) (by decide)).1

/-- C4: a completion call whose HTTP response has status 429 yields the
fixed rate-limited message, before `raise_for_status` can run; the
embedding returns it directly — one evaluation, no retry, no exception. -/
theorem c4_rate_limited (content : Option String) :
    query_ai true (ApiResult.response 429 content) = rateMsg := rfl

/-! ### Per-turn exception isolation (C5) -/

/-- Counterexample to C5 as stated over both handlers: the `bot.py` variant
adds the failure marker and then re-raises the pipeline exception out of
the handler. -/
theorem c5_bot_handler_reraises_counterexample :
    Act.raiseOut ∈ on_message_bot false ∧ Act.addReactErr ∈ on_message_bot false := by
  decide

/-- C5 (amended to the `main.py` handler): `DiscordLLMBot.on_message` never
lets an exception out; the typing task is cancelled on every path, and on a
pipeline failure the failure marker is attempted whenever reactions are
permitted. -/
theorem c5_main_handler_isolation (pipelineOk reactAllowed : Bool) :
    Act.raiseOut ∉ on_message_main pipelineOk reactAllowed ∧
    Act.cancelTyping ∈ on_message_main pipelineOk reactAllowed ∧
    (pipelineOk = false → reactAllowed = true →
      Act.addReactErr ∈ on_message_main pipelineOk reactAllowed) := by
  cases pipelineOk <;> cases reactAllowed <;> decide

/-- Witness for C5 (amended): failed pipeline, reactions permitted. -/
theorem c5_main_handler_isolation_witness :
    Act.raiseOut ∉ on_message_main false true ∧
    Act.cancelTyping ∈ on_message_main false true ∧
    Act.addReactErr ∈ on_message_main false true := by
  have h := c5_main_handler_isolation false true
  exact ⟨h.1, h.2.1, h.2.2 rfl rfl⟩

/-! ### The typing-task registry (C6) -/

/-- C6 fails on the code: two overlapping turns in channel 7 reach a state
with two live indicator tasks for that channel; the registry keeps only the
second (task 1), and the first (task 0) is left running outside it,
uncancellable by `finally`. -/
theorem c6_leaked_indicator_bug :
    ReachableOrch (startTurn 7 (startTurn 7 initOrch)) ∧
    liveCount 7 (startTurn 7 (startTurn 7 initOrch)) = 2 ∧
    (0, 7) ∈ (startTurn 7 (startTurn 7 initOrch)).live ∧
    (startTurn 7 (startTurn 7 initOrch)).registry.lookup 7 = some 1 ∧
    (∀ p ∈ (startTurn 7 (startTurn 7 initOrch)).registry, p.2 ≠ 0) :=
  ⟨ReachableOrch.start 7 (ReachableOrch.start 7 ReachableOrch.init),
    by decide, by decide, by decide, by decide⟩

/-! ### Process exit codes (C7) -/

/-- Counterexample to C7 as stated: with the Discord token missing,
`validate` raises, `start_bot` catches the `ValueError`, and the process
exits 0, not 1. -/
theorem c7_missing_secret_exit_zero_counterexample :
    validate ⟨none, some "key"⟩ =
      Except.error "Переменная DISCORD_BOT_TOKEN не установлена в .env файле." ∧
    main_exit (Except.ok ⟨none, some "key"⟩) RunOutcome.normal = 0 :=
  ⟨rfl, rfl⟩

/-- C7 (amended): the process exits 0 whenever config/bot construction
succeeds — including when configuration validation fails, since `start_bot`
catches and only logs the `ValueError` — and exits 1 exactly when
construction raises before `start_bot`. -/
theorem c7_exit_codes (c : Secrets) (r : RunOutcome) (e : String) :
    start_bot c r = Except.ok () ∧
    main_exit (Except.ok c) r = 0 ∧
    main_exit (Except.error e) r = 1 := by
  have hsb : start_bot c r = Except.ok () := by
    rw [start_bot.eq_def]
    cases validate c
    · rfl
    · cases r <;> rfl
  refine ⟨hsb, ?_, rfl⟩
  simp [main_exit, hsb]

end DiscordBot
